import Mathlib

/-!
Verification of the image-catalog pipeline (image_finder.py, thumbnail.py)
against its natural-language specification.

The development shallowly embeds the two source files:
- `image_finder.py`: SHA-256 fingerprinting (`calculate_file_hash`), the
  candidate scanner (`collect_files`, `process_file_metadata`) and the batched
  registry insert (`insert_image_records`, `catalog_images`) against a
  PostgreSQL `images` table with UNIQUE constraints on `path` and `hash` and
  an `ON CONFLICT (hash) DO NOTHING` insert policy.
- `thumbnail.py`: the thumbnail pass (`create_thumbnails`) with its
  missing-artifact query, per-record counters, and conditional registry
  update, plus a detailed model of PIL's `Image.thumbnail` bounded resize
  (`generate_thumbnail`), using exact rational arithmetic in place of
  Python floats.

Machine integers are modelled as `Nat` with explicit `% 2 ^ 32` masking where
the SHA-256 rounds overflow; file reads and stats are modelled as `Option`
values (`none` = the exception path); the database is an explicit table state
threaded through the operations, and the SQL statement's conflict policy is
modelled row by row in VALUES order (PostgreSQL checks the arbiter index
first and silently skips the row on a `hash` conflict; a `path`-only conflict
raises a unique-violation error, modelled as `Except.error`).
-/

/-! ## SHA-256 (model of `hashlib.sha256`)

`image_finder.calculate_file_hash` streams the file through
`hashlib.sha256`.  The hash object is modelled by the bytes fed so far
(`Sha256Ctx`); `update` appends (hashlib semantics: successive updates hash
the concatenation) and `hexdigest` applies the SHA-256 function below, a
direct executable transcription of FIPS 180-4 on byte lists. -/

def w32 (n : Nat) : Nat := n % 4294967296

def rotr (x n : Nat) : Nat := ((x >>> n) ||| (x <<< (32 - n))) % 4294967296

def bigS0 (x : Nat) : Nat := rotr x 2 ^^^ rotr x 13 ^^^ rotr x 22

def bigS1 (x : Nat) : Nat := rotr x 6 ^^^ rotr x 11 ^^^ rotr x 25

def smallS0 (x : Nat) : Nat := rotr x 7 ^^^ rotr x 18 ^^^ (x >>> 3)

def smallS1 (x : Nat) : Nat := rotr x 17 ^^^ rotr x 19 ^^^ (x >>> 10)

def chFn (e f g : Nat) : Nat := (e &&& f) ^^^ ((e ^^^ 4294967295) &&& g)

def majFn (a b c : Nat) : Nat := (a &&& b) ^^^ (a &&& c) ^^^ (b &&& c)

def shaK : List Nat :=
  [1116352408, 1899447441, 3049323471, 3921009573,
   961987163, 1508970993, 2453635748, 2870763221,
   3624381080, 310598401, 607225278, 1426881987,
   1925078388, 2162078206, 2614888103, 3248222580,
   3835390401, 4022224774, 264347078, 604807628,
   770255983, 1249150122, 1555081692, 1996064986,
   2554220882, 2821834349, 2952996808, 3210313671,
   3336571891, 3584528711, 113926993, 338241895,
   666307205, 773529912, 1294757372, 1396182291,
   1695183700, 1986661051, 2177026350, 2456956037,
   2730485921, 2820302411, 3259730800, 3345764771,
   3516065817, 3600352804, 4094571909, 275423344,
   430227734, 506948616, 659060556, 883997877,
   958139571, 1322822218, 1537002063, 1747873779,
   1955562222, 2024104815, 2227730452, 2361852424,
   2428436474, 2756734187, 3204031479, 3329325298]

structure H8 where
  a : Nat
  b : Nat
  c : Nat
  d : Nat
  e : Nat
  f : Nat
  g : Nat
  h : Nat
deriving Repr, DecidableEq

def initH : H8 :=
  ⟨1779033703, 3144134277, 1013904242, 2773480762,
   1359893119, 2600822924, 528734635, 1541459225⟩

def round1 (s : H8) (k w : Nat) : H8 :=
  let t1 := w32 (s.h + bigS1 s.e + chFn s.e s.f s.g + k + w)
  let t2 := w32 (bigS0 s.a + majFn s.a s.b s.c)
  ⟨w32 (t1 + t2), s.a, s.b, s.c, w32 (s.d + t1), s.e, s.f, s.g⟩

/-- Fuel-driven chunking (structural recursion so that the kernel can
evaluate it); `chunksOf n l` splits `l` into successive blocks of `n`
elements, the model of repeated `f.read(n)` calls and of multi-row batching. -/
def chunksGo (n : Nat) : Nat → List α → List (List α)
  | 0, _ => []
  | _ + 1, [] => []
  | fuel + 1, l => l.take n :: chunksGo n fuel (l.drop n)

def chunksOf (n : Nat) (l : List α) : List (List α) := chunksGo n l.length l

def toWords (block : List Nat) : List Nat :=
  (chunksOf 4 block).map (fun b => b.foldl (fun acc x => acc * 256 + x) 0)

def scheduleStep (W : List Nat) : List Nat :=
  let n := W.length
  W ++ [w32 (smallS1 (W.getD (n - 2) 0) + W.getD (n - 7) 0 +
             smallS0 (W.getD (n - 15) 0) + W.getD (n - 16) 0)]

def schedule : Nat → List Nat → List Nat
  | 0, W => W
  | k + 1, W => schedule k (scheduleStep W)

def compressBlock (h0 : H8) (block : List Nat) : H8 :=
  let W := schedule 48 (toWords block)
  let s := (shaK.zip W).foldl (fun s kw => round1 s kw.1 kw.2) h0
  ⟨w32 (h0.a + s.a), w32 (h0.b + s.b), w32 (h0.c + s.c), w32 (h0.d + s.d),
   w32 (h0.e + s.e), w32 (h0.f + s.f), w32 (h0.g + s.g), w32 (h0.h + s.h)⟩

def be8 (n : Nat) : List Nat :=
  [(n >>> 56) % 256, (n >>> 48) % 256, (n >>> 40) % 256, (n >>> 32) % 256,
   (n >>> 24) % 256, (n >>> 16) % 256, (n >>> 8) % 256, n % 256]

def be4 (n : Nat) : List Nat :=
  [(n >>> 24) % 256, (n >>> 16) % 256, (n >>> 8) % 256, n % 256]

def shaPad (msg : List Nat) : List Nat :=
  msg ++ [128] ++ List.replicate ((119 - msg.length % 64) % 64) 0 ++
    be8 (8 * msg.length)

/-- SHA-256 digest (32 bytes) of a byte list. -/
def sha256 (msg : List Nat) : List Nat :=
  let fin := (chunksOf 64 (shaPad msg)).foldl compressBlock initH
  be4 fin.a ++ be4 fin.b ++ be4 fin.c ++ be4 fin.d ++
    be4 fin.e ++ be4 fin.f ++ be4 fin.g ++ be4 fin.h

def hexDigit (n : Nat) : Char := "0123456789abcdef".toList.getD n 'x'

def bytesToHex (bs : List Nat) : String :=
  String.mk (bs.foldr (fun b acc => hexDigit (b / 16 % 16) :: hexDigit (b % 16) :: acc) [])

/-- Model of a `hashlib.sha256()` object: the bytes fed so far.  Feeding data
in several `update` calls hashes their concatenation. -/
structure Sha256Ctx where
  data : List Nat
deriving Repr, DecidableEq

def Sha256Ctx.new : Sha256Ctx := ⟨[]⟩

def Sha256Ctx.update (c : Sha256Ctx) (chunk : List Nat) : Sha256Ctx :=
  ⟨c.data ++ chunk⟩

def Sha256Ctx.hexdigest (c : Sha256Ctx) : String := bytesToHex (sha256 c.data)

/-- `image_finder.calculate_file_hash`: stream the file in 8192-byte chunks
through SHA-256.  The file's byte content is the `some` case of the argument
(the only use the source makes of the path is to open and read it); `none` is
the exception path — any read failure is caught, logged, and the function
returns the empty string. -/
def calculate_file_hash (readResult : Option (List Nat)) : String :=
  match readResult with
  | none => ""
  | some content =>
      ((chunksOf 8192 content).foldl Sha256Ctx.update Sha256Ctx.new).hexdigest

/-! ## Catalog scanner and registry (image_finder.py) -/

/-- `IMAGE_EXTENSIONS` from image_finder.py (a Python set; only membership is
used, so a list is an adequate model). -/
def IMAGE_EXTENSIONS : List String :=
  [".jpg", ".jpeg", ".png", ".bmp", ".tiff", ".webp", ".dng"]

/-- `EXCLUDE_DIRS` from image_finder.py. -/
def EXCLUDE_DIRS : List String := ["venv", ".venv", "__pycache__"]

def lastIndexOfDot : List Char → Option Nat
  | [] => none
  | c :: cs =>
      match lastIndexOfDot cs with
      | some i => some (i + 1)
      | none => if c = '.' then some 0 else none

/-- `pathlib.PurePath.suffix` of a file name: the part from the last dot,
empty when the dot is the first or last character (hidden files and trailing
dots have no suffix). -/
def pySuffix (name : String) : String :=
  let cs := name.toList
  match lastIndexOfDot cs with
  | none => ""
  | some i => if 0 < i ∧ i < cs.length - 1 then String.mk (cs.drop i) else ""

/-- `str.lower()` (character-wise; extensions are ASCII). -/
def strLower (s : String) : String := String.mk (s.toList.map Char.toLower)

/-- `str.startswith(p)`. -/
def pyStartsWith (s p : String) : Bool := p.toList.isPrefixOf s.toList

/-- A file met during the directory walk.  `parts` are the path components
(as in `file_path.parts`); `statResult`/`readResult` are the outcomes of
`stat()` and of reading the bytes (`none` = the raised-exception path);
`resolvedPath` is `str(file_path.resolve())`. -/
structure FsFile where
  parts : List String
  is_file : Bool
  resolvedPath : String
  statResult : Option (Nat × Int)
  readResult : Option (List Nat)
deriving Repr, DecidableEq

def FsFile.name (f : FsFile) : String := f.parts.getLastD ""

/-- One root directory handed to the scanner: whether `base_dir.exists()`
and the entries its recursive glob would yield. -/
structure RootDir where
  doesExist : Bool
  entries : List FsFile
deriving Repr, DecidableEq

/-- The filter in `collect_files`: regular file, supported extension
(lower-cased), not hidden, no excluded path component. -/
def candidateFile (f : FsFile) : Bool :=
  f.is_file && IMAGE_EXTENSIONS.contains (strLower (pySuffix f.name)) &&
    !(pyStartsWith f.name ".") && !(f.parts.any (fun part => EXCLUDE_DIRS.contains part))

/-- `image_finder.collect_files`: walk every existing root directory and
keep the candidate files; missing directories contribute nothing. -/
def collect_files (base_dirs : List RootDir) : List FsFile :=
  base_dirs.foldl
    (fun acc d => if d.doesExist then acc ++ d.entries.filter candidateFile else acc) []

/-- A candidate metadata record, as built by `process_file_metadata`. -/
structure ImageRecord where
  file_name : String
  path : String
  extension : String
  size : Nat
  timestamp : Int
  hash : String
deriving Repr, DecidableEq

/-- `image_finder.process_file_metadata`: excluded paths are dropped, a
failing `stat()` is dropped (caught exception), and a file whose hash came
back empty (fingerprinting failure) is dropped. -/
def process_file_metadata (f : FsFile) : Option ImageRecord :=
  if f.parts.any (fun part => EXCLUDE_DIRS.contains part) then none
  else
    match f.statResult with
    | none => none
    | some st =>
        if calculate_file_hash f.readResult = "" then none
        else some
          { file_name := f.name
            path := f.resolvedPath
            extension := strLower (pySuffix f.name)
            size := st.1
            timestamp := st.2
            hash := calculate_file_hash f.readResult }

/-- A row of the `images` table (`thumbnail_path` is the nullable column
added by thumbnail.py; freshly inserted rows leave it NULL). -/
structure Row where
  id : Nat
  file_name : String
  path : String
  extension : String
  size : Nat
  timestamp : Int
  hash : String
  thumbnail_path : Option String
deriving Repr, DecidableEq

/-- The `images` table: its rows in insertion order plus the next SERIAL id. -/
structure ImagesTable where
  rows : List Row
  nextId : Nat
deriving Repr, DecidableEq

def emptyTable : ImagesTable := ⟨[], 1⟩

def mkRow (id : Nat) (r : ImageRecord) : Row :=
  { id := id, file_name := r.file_name, path := r.path, extension := r.extension,
    size := r.size, timestamp := r.timestamp, hash := r.hash, thumbnail_path := none }

/-- One VALUES row of the batched insert.  PostgreSQL checks the arbiter
index (`hash`) first: on a `hash` conflict — also against rows inserted
earlier in the same statement — the row is silently skipped (`ON CONFLICT
(hash) DO NOTHING`).  Otherwise the row is inserted, and a conflict on the
`path UNIQUE` constraint raises a unique-violation error that aborts the
statement. -/
def insertOne (t : ImagesTable) (r : ImageRecord) : Except Unit (ImagesTable × Nat) :=
  if ∃ row ∈ t.rows, row.hash = r.hash then .ok (t, 0)
  else if ∃ row ∈ t.rows, row.path = r.path then .error ()
  else .ok ({ rows := t.rows ++ [mkRow t.nextId r], nextId := t.nextId + 1 }, 1)

/-- `image_finder.insert_image_records`: the batched multi-row insert,
processed in VALUES order; returns the count of rows actually inserted
(`cursor.rowcount`).  `Except.error` is the propagated psycopg2 exception
(the statement, and with it the uncommitted transaction, is aborted). -/
def insert_image_records (t : ImagesTable) : List ImageRecord → Except Unit (ImagesTable × Nat)
  | [] => .ok (t, 0)
  | r :: rs =>
      match insertOne t r with
      | .error e => .error e
      | .ok (t1, m) =>
          match insert_image_records t1 rs with
          | .error e => .error e
          | .ok (t2, n) => .ok (t2, m + n)

/-- The buffering loop of `catalog_images`: accumulate candidate records and
flush a batch whenever the buffer reaches `batch_size`, with a final flush of
the remainder.  The returned count is the total inserted across batches (the
per-batch counts the source logs, summed). -/
def catalogStep (batch_size : Nat) :
    List FsFile → List ImageRecord → ImagesTable → Nat → Except Unit (ImagesTable × Nat)
  | [], buffer, t, total =>
      match insert_image_records t buffer with
      | .error e => .error e
      | .ok (t1, m) => .ok (t1, total + m)
  | f :: fs, buffer, t, total =>
      match process_file_metadata f with
      | none => catalogStep batch_size fs buffer t total
      | some record =>
          let buffer := buffer ++ [record]
          if batch_size ≤ buffer.length then
            match insert_image_records t buffer with
            | .error e => .error e
            | .ok (t1, m) => catalogStep batch_size fs [] t1 (total + m)
          else catalogStep batch_size fs buffer t total

/-- `image_finder.catalog_images`: scan, extract metadata, and insert in
batches. -/
def catalog_images (t : ImagesTable) (base_dirs : List RootDir)
    (batch_size : Nat := 500) : Except Unit (ImagesTable × Nat) :=
  catalogStep batch_size (collect_files base_dirs) [] t 0

/-! ## Thumbnail pass (thumbnail.py) -/

/-- `SUPPORTED_IMAGE_EXTENSIONS` from thumbnail.py. -/
def SUPPORTED_IMAGE_EXTENSIONS : List String :=
  [".webp", ".jpeg", ".png", ".bmp", ".jpg", ".tiff"]

def THUMBNAIL_DIR : String := "public/thumbnails"

/-- The destination path for a record's thumbnail, computed from the
surrogate id: `THUMBNAIL_DIR / f"{image_id}_thumbnail.jpg"`. -/
def thumbnailPathFor (image_id : Nat) : String :=
  THUMBNAIL_DIR ++ "/" ++ toString image_id ++ "_thumbnail.jpg"

/-- The missing-artifact query of `create_thumbnails`:
`SELECT ... WHERE extension = ANY(supported) AND thumbnail_path IS NULL`. -/
def recordsMissingArtifact (table : List Row) : List Row :=
  table.filter
    (fun r => SUPPORTED_IMAGE_EXTENSIONS.contains r.extension && r.thumbnail_path.isNone)

/-- `UPDATE images SET thumbnail_path = %s WHERE id = %s`. -/
def updateThumb (table : List Row) (image_id : Nat) (p : String) : List Row :=
  table.map (fun row => if row.id = image_id then { row with thumbnail_path := some p } else row)

/-- State threaded through the `create_thumbnails` loop: the `images` table,
the set of paths existing on disk (source files and already-written
thumbnails), and the five counters the pass logs. -/
structure ThumbState where
  table : List Row
  disk : List String
  total_images : Nat
  total_processed : Nat
  total_skipped : Nat
  total_errors : Nat
  total_success : Nat
deriving Repr, DecidableEq

/-- The body of the `create_thumbnails` loop for one fetched record.
`gen src dst` abstracts the success of `generate_thumbnail(src, dst)`
(modelled in detail below for the resize claims); on success the thumbnail
file is written and the registry row updated and committed.  When the source
file is missing the record is skipped and counted; when the destination
thumbnail already exists the iteration does nothing at all. -/
def processOne (gen : String → String → Bool) (s : ThumbState) (r : Row) : ThumbState :=
  if r.path ∈ s.disk then
    if thumbnailPathFor r.id ∈ s.disk then s
    else
      let success := gen r.path (thumbnailPathFor r.id)
      let s1 := { s with total_processed := s.total_processed + 1 }
      if success then
        { s1 with
            total_success := s1.total_success + 1
            disk := thumbnailPathFor r.id :: s1.disk
            table := updateThumb s1.table r.id (thumbnailPathFor r.id) }
      else { s1 with total_errors := s1.total_errors + 1 }
  else { s with total_skipped := s.total_skipped + 1 }

/-- `thumbnail.create_thumbnails`: fetch the records without thumbnails
(a snapshot — `fetchall`), then run the loop over them.  The whole loop is
wrapped in `try/except` in the source, so no per-item exception escapes. -/
def create_thumbnails (gen : String → String → Bool)
    (table : List Row) (disk : List String) : ThumbState :=
  (recordsMissingArtifact table).foldl (processOne gen)
    { table := table, disk := disk,
      total_images := (recordsMissingArtifact table).length,
      total_processed := 0, total_skipped := 0, total_errors := 0, total_success := 0 }

/-- Iterated thumbnail passes (rerunning the script), threading table and
disk. -/
def thumbnailRuns (gen : String → String → Bool) :
    Nat → List Row × List String → List Row × List String
  | 0, st => st
  | n + 1, st =>
      thumbnailRuns gen n
        ((create_thumbnails gen st.1 st.2).table, (create_thumbnails gen st.1 st.2).disk)

/-! ## PIL model for `generate_thumbnail` (thumbnail.py step 8)

`Image.thumbnail((300, 300))` computes the bounded size exactly as in PIL:
keep the size when the image already fits the box, otherwise scale the
larger-ratio side to the box and round the other side to the nearest of
floor/ceil of the exact value (clamped to at least 1).  PIL does this in
Python floats; the model uses exact rational arithmetic, which agrees on
everything the spec claims (bounds, no upscaling, rounding of the aspect). -/

/-- PIL's inner `round_aspect`: `max(min(floor(number), ceil(number),
key=key), 1)` — pick whichever of floor/ceil has the smaller key (floor on
ties), then clamp to at least 1. -/
def round_aspect (number : ℚ) (key : ℤ → ℚ) : ℤ :=
  max (if key ⌊number⌋ ≤ key ⌈number⌉ then ⌊number⌋ else ⌈number⌉) 1

/-- The new size computed by `Image.thumbnail((boxW, boxH))`. -/
def pilThumbnailSize (w h boxW boxH : Nat) : Nat × Nat :=
  if boxW ≥ w ∧ boxH ≥ h then (w, h)
  else
    let aspect : ℚ := (w : ℚ) / (h : ℚ)
    if (boxW : ℚ) / (boxH : ℚ) ≥ aspect then
      let x := round_aspect ((boxH : ℚ) * aspect)
        (fun n => |aspect - (n : ℚ) / (boxH : ℚ)|)
      (x.toNat, boxH)
    else
      let y := round_aspect ((boxW : ℚ) / aspect)
        (fun n => if n = 0 then 0 else |aspect - (boxW : ℚ) / (n : ℚ)|)
      (boxW, y.toNat)

/-- A decoded PIL image: color mode and pixel dimensions. -/
structure PILImage where
  mode : String
  width : Nat
  height : Nat
deriving Repr, DecidableEq

/-- Modes PIL's JPEG encoder accepts (JpegImagePlugin's RAWMODE table);
saving any other mode as JPEG raises, which `generate_thumbnail` catches and
turns into a `False` return. -/
def JPEG_RAWMODES : List String := ["1", "L", "RGB", "RGBX", "CMYK", "YCbCr"]

/-- The artifact written by a successful `generate_thumbnail`. -/
structure SavedFile where
  mode : String
  width : Nat
  height : Nat
  format : String
deriving Repr, DecidableEq

/-- The `img.convert("RGB")` step of `generate_thumbnail`, applied exactly
when the decoded mode is RGBA or P. -/
def convertMode (img : PILImage) : PILImage :=
  if img.mode = "RGBA" ∨ img.mode = "P" then { img with mode := "RGB" } else img

/-- `thumbnail.generate_thumbnail`: open the image (`none` = decode/open
failure), convert RGBA or P to RGB, resize with `img.thumbnail((300, 300))`,
and save as JPEG.  `writeOk` models the I/O outcome of the save; a failed
save (I/O error or JPEG-incompatible mode) yields `none`, the `False`
return of the source.  A `some` result is the written artifact. -/
def generate_thumbnail (img : Option PILImage) (writeOk : Bool) : Option SavedFile :=
  match img with
  | none => none
  | some img0 =>
      if writeOk && JPEG_RAWMODES.contains (convertMode img0).mode then
        some { mode := (convertMode img0).mode,
               width := (pilThumbnailSize (convertMode img0).width
                 (convertMode img0).height 300 300).1,
               height := (pilThumbnailSize (convertMode img0).width
                 (convertMode img0).height 300 300).2,
               format := "JPEG" }
      else none

/-! ## Lemmas about chunked hashing -/

theorem chunksGo_join {α : Type} (n : Nat) (hn : 1 ≤ n) :
    ∀ (fuel : Nat) (l : List α), l.length ≤ fuel → (chunksGo n fuel l).flatten = l := by
  intro fuel
  induction fuel with
  | zero =>
      intro l hl
      rw [List.length_eq_zero.mp (Nat.le_zero.mp hl)]
      rfl
  | succ fuel ih =>
      intro l hl
      cases l with
      | nil => rfl
      | cons x xs =>
          have hstep : chunksGo n (fuel + 1) (x :: xs) =
              (x :: xs).take n :: chunksGo n fuel ((x :: xs).drop n) := rfl
          rw [hstep, List.flatten_cons, ih ((x :: xs).drop n) ?_, List.take_append_drop]
          have hlen : (x :: xs).length = xs.length + 1 := rfl
          rw [List.length_drop]
          omega

theorem chunksOf_join {α : Type} (n : Nat) (hn : 1 ≤ n) (l : List α) :
    (chunksOf n l).flatten = l :=
  chunksGo_join n hn l.length l (Nat.le_refl _)

theorem foldl_update_data (cs : List (List Nat)) :
    ∀ c : Sha256Ctx, (cs.foldl Sha256Ctx.update c).data = c.data ++ cs.flatten := by
  induction cs with
  | nil => intro c; simp
  | cons x xs ih =>
      intro c
      simp [List.foldl_cons, ih, Sha256Ctx.update, List.append_assoc]

theorem bytesToHex_length (bs : List Nat) : (bytesToHex bs).length = 2 * bs.length := by
  show (bs.foldr (fun b acc => hexDigit (b / 16 % 16) :: hexDigit (b % 16) :: acc) []).length
      = 2 * bs.length
  induction bs with
  | nil => rfl
  | cons b bs ih => simp [List.foldr_cons, ih]; omega

theorem sha256_length (msg : List Nat) : (sha256 msg).length = 32 := by
  simp [sha256, be4]

theorem chunked_hexdigest (n : Nat) (hn : 1 ≤ n) (content : List Nat) :
    ((chunksOf n content).foldl Sha256Ctx.update Sha256Ctx.new).hexdigest =
      bytesToHex (sha256 content) := by
  rw [Sha256Ctx.hexdigest, foldl_update_data, chunksOf_join n hn]
  rfl

theorem calculate_file_hash_some (content : List Nat) :
    calculate_file_hash (some content) = bytesToHex (sha256 content) :=
  chunked_hexdigest 8192 (by omega) content

theorem calculate_file_hash_some_length (content : List Nat) :
    (calculate_file_hash (some content)).length = 64 := by
  rw [calculate_file_hash_some, bytesToHex_length, sha256_length]

/-! ## Claim theorems: fingerprinter -/

/-- C8: for every readable file (byte content `content`), the chunked
computation of `calculate_file_hash` — successive fixed-size chunks fed to
the SHA-256 object — returns the same hex-encoded 256-bit digest (64 hex
characters) as hashing the whole byte content at once, and the same digest
results for any chunk size, so the result depends only on the byte content
and not on chunk boundaries (nor on the path, which enters the computation
only through the bytes read from it). -/
theorem c8_chunked_hash_eq (content : List Nat) (n : Nat) (hn : 0 < n) :
    calculate_file_hash (some content) = bytesToHex (sha256 content) ∧
    ((chunksOf n content).foldl Sha256Ctx.update Sha256Ctx.new).hexdigest =
      bytesToHex (sha256 content) ∧
    (calculate_file_hash (some content)).length = 64 :=
  ⟨calculate_file_hash_some content, chunked_hexdigest n hn content,
    calculate_file_hash_some_length content⟩

theorem c8_chunked_hash_eq_witness :
    calculate_file_hash (some [97, 98, 99]) = bytesToHex (sha256 [97, 98, 99]) ∧
    ((chunksOf 2 [97, 98, 99]).foldl Sha256Ctx.update Sha256Ctx.new).hexdigest =
      bytesToHex (sha256 [97, 98, 99]) ∧
    (calculate_file_hash (some [97, 98, 99])).length = 64 :=
  c8_chunked_hash_eq [97, 98, 99] 2 (by omega)

/-- C4: a file whose read fails yields the failure signal `""` from
`calculate_file_hash` (never a partial or zero hash — a successful hash is
never the empty string), and `process_file_metadata` drops such a file
entirely: no candidate record with an empty fingerprint is ever produced,
so none can be passed downstream to the registry insert. -/
theorem c4_failed_hash_dropped (f : FsFile) :
    calculate_file_hash none = "" ∧
    (∀ content, calculate_file_hash (some content) ≠ "") ∧
    (f.readResult = none → process_file_metadata f = none) ∧
    (∀ r, process_file_metadata f = some r →
      r.hash ≠ "" ∧ r.hash = calculate_file_hash f.readResult) := by
  refine ⟨rfl, ?_, ?_, ?_⟩
  · intro content h
    have h1 := calculate_file_hash_some_length content
    rw [h] at h1
    simp at h1
  · intro hread
    unfold process_file_metadata
    rw [hread]
    split
    · rfl
    · cases f.statResult with
      | none => rfl
      | some st => rfl
  · intro r hr
    unfold process_file_metadata at hr
    split at hr
    · exact absurd hr (by simp)
    · split at hr
      · exact absurd hr (by simp)
      · split at hr
        · exact absurd hr (by simp)
        · rename_i hne
          refine ⟨?_, ?_⟩
          · have hh : r.hash = calculate_file_hash f.readResult := by
              rw [← Option.some.inj hr]
            rw [hh]; exact hne
          · rw [← Option.some.inj hr]

theorem c4_failed_hash_dropped_witness :
    process_file_metadata ⟨["home", "Pictures", "a.jpg"], true,
      "/home/Pictures/a.jpg", some (10, 5), none⟩ = none ∧
    calculate_file_hash (some []) ≠ "" :=
  ⟨(c4_failed_hash_dropped ⟨["home", "Pictures", "a.jpg"], true,
      "/home/Pictures/a.jpg", some (10, 5), none⟩).2.2.1 rfl,
   (c4_failed_hash_dropped ⟨["home", "Pictures", "a.jpg"], true,
      "/home/Pictures/a.jpg", some (10, 5), none⟩).2.1 []⟩

/-! ## Claim theorems: thumbnail pass -/

/-- C5: a record selected by the thumbnail pass whose source file no longer
exists on disk is skipped: the loop iteration only increments the
skipped-missing counter — table (hence the record's `thumbnail_path`), disk
and every other counter are untouched — and the fold simply advances to the
next record; the pass is a total function, and in the source the loop body
is inside a `try/except`, so no exception escapes. -/
theorem c5_missing_source_skipped (gen : String → String → Bool)
    (s : ThumbState) (r : Row) (hmiss : r.path ∉ s.disk) :
    processOne gen s r = { s with total_skipped := s.total_skipped + 1 } := by
  unfold processOne
  rw [if_neg hmiss]

theorem c5_missing_source_skipped_witness :
    processOne (fun _ _ => true)
      ⟨[⟨1, "a.jpg", "/p/a.jpg", ".jpg", 0, 0, "h1", none⟩], ["/p/other.jpg"],
        1, 0, 0, 0, 0⟩
      ⟨1, "a.jpg", "/p/a.jpg", ".jpg", 0, 0, "h1", none⟩ =
    ⟨[⟨1, "a.jpg", "/p/a.jpg", ".jpg", 0, 0, "h1", none⟩], ["/p/other.jpg"],
        1, 0, 1, 0, 0⟩ :=
  c5_missing_source_skipped (fun _ _ => true) _ _ (by decide)

/-- C6: when generation runs and fails for a record, the failure is counted
(`total_errors`) and the registry is left completely unmodified for that
record — the table is unchanged, so its `thumbnail_path` stays unset and a
future run's missing-artifact query selects it again; the registry update is
executed exactly when generation reports success. -/
theorem c6_failure_leaves_registry (gen : String → String → Bool)
    (s : ThumbState) (r : Row) (hsrc : r.path ∈ s.disk)
    (hthumb : thumbnailPathFor r.id ∉ s.disk) :
    (gen r.path (thumbnailPathFor r.id) = false →
      processOne gen s r =
        { s with total_processed := s.total_processed + 1,
                 total_errors := s.total_errors + 1 }) ∧
    (gen r.path (thumbnailPathFor r.id) = true →
      processOne gen s r =
        { s with total_processed := s.total_processed + 1,
                 total_success := s.total_success + 1,
                 disk := thumbnailPathFor r.id :: s.disk,
                 table := updateThumb s.table r.id (thumbnailPathFor r.id) }) := by
  unfold processOne
  rw [if_pos hsrc, if_neg hthumb]
  constructor
  · intro hgen; rw [hgen]; rfl
  · intro hgen; rw [hgen]; rfl

theorem c6_failure_leaves_registry_witness :
    processOne (fun _ _ => false)
      ⟨[⟨1, "a.jpg", "/p/a.jpg", ".jpg", 0, 0, "h1", none⟩], ["/p/a.jpg"],
        1, 0, 0, 0, 0⟩
      ⟨1, "a.jpg", "/p/a.jpg", ".jpg", 0, 0, "h1", none⟩ =
    ⟨[⟨1, "a.jpg", "/p/a.jpg", ".jpg", 0, 0, "h1", none⟩], ["/p/a.jpg"],
        1, 1, 0, 1, 0⟩ :=
  (c6_failure_leaves_registry (fun _ _ => false) _ _ (by decide) (by decide)).1 rfl

/-- C2 counterexample: a record that the missing-artifact query returns,
whose source file exists and whose destination thumbnail already exists on
disk.  The claim states the pass still performs the registry mutation that
attaches the artifact path; in fact the whole iteration body is guarded by
`if not thumbnail_path.exists()`, so the pass leaves the table — including
that record's `thumbnail_path`, still `none` — completely unchanged. -/
theorem c2_counterexample :
    recordsMissingArtifact [⟨1, "a.jpg", "/p/a.jpg", ".jpg", 0, 0, "h1", none⟩] =
      [⟨1, "a.jpg", "/p/a.jpg", ".jpg", 0, 0, "h1", none⟩] ∧
    create_thumbnails (fun _ _ => true)
      [⟨1, "a.jpg", "/p/a.jpg", ".jpg", 0, 0, "h1", none⟩]
      ["/p/a.jpg", "public/thumbnails/1_thumbnail.jpg"] =
    ⟨[⟨1, "a.jpg", "/p/a.jpg", ".jpg", 0, 0, "h1", none⟩],
      ["/p/a.jpg", "public/thumbnails/1_thumbnail.jpg"], 1, 0, 0, 0, 0⟩ := by
  constructor
  · rfl
  · rfl

/-- C2 as amended: for a record returned by the missing-artifact query whose
source file exists and whose destination thumbnail already exists on disk,
the pass skips generation but performs no registry mutation either — the
loop iteration leaves the state entirely unchanged (no counter moves, the
record keeps `thumbnail_path` unset and will be selected again by every
future run). -/
theorem c2_amended_existing_thumbnail_noop (gen : String → String → Bool)
    (s : ThumbState) (r : Row) (hsrc : r.path ∈ s.disk)
    (hthumb : thumbnailPathFor r.id ∈ s.disk) :
    processOne gen s r = s := by
  unfold processOne
  rw [if_pos hsrc, if_pos hthumb]

theorem c2_amended_existing_thumbnail_noop_witness :
    processOne (fun _ _ => true)
      ⟨[⟨1, "a.jpg", "/p/a.jpg", ".jpg", 0, 0, "h1", none⟩],
        ["/p/a.jpg", "public/thumbnails/1_thumbnail.jpg"], 1, 0, 0, 0, 0⟩
      ⟨1, "a.jpg", "/p/a.jpg", ".jpg", 0, 0, "h1", none⟩ =
    ⟨[⟨1, "a.jpg", "/p/a.jpg", ".jpg", 0, 0, "h1", none⟩],
      ["/p/a.jpg", "public/thumbnails/1_thumbnail.jpg"], 1, 0, 0, 0, 0⟩ :=
  c2_amended_existing_thumbnail_noop (fun _ _ => true) _ _ (by decide) (by decide)

/-! ## Branch lemmas for the thumbnail loop and the dot-NG invariant (C10) -/

theorem processOne_missing (gen : String → String → Bool) (s : ThumbState)
    (r : Row) (hmiss : r.path ∉ s.disk) :
    processOne gen s r = { s with total_skipped := s.total_skipped + 1 } := by
  unfold processOne
  rw [if_neg hmiss]

theorem processOne_already (gen : String → String → Bool) (s : ThumbState)
    (r : Row) (hsrc : r.path ∈ s.disk) (hthumb : thumbnailPathFor r.id ∈ s.disk) :
    processOne gen s r = s := by
  unfold processOne
  rw [if_pos hsrc, if_pos hthumb]

theorem processOne_genfail (gen : String → String → Bool) (s : ThumbState)
    (r : Row) (hsrc : r.path ∈ s.disk) (hthumb : thumbnailPathFor r.id ∉ s.disk)
    (hg : gen r.path (thumbnailPathFor r.id) = false) :
    processOne gen s r = { s with total_processed := s.total_processed + 1,
                                  total_errors := s.total_errors + 1 } := by
  unfold processOne
  rw [if_pos hsrc, if_neg hthumb, hg]
  rfl

theorem processOne_gensucc (gen : String → String → Bool) (s : ThumbState)
    (r : Row) (hsrc : r.path ∈ s.disk) (hthumb : thumbnailPathFor r.id ∉ s.disk)
    (hg : gen r.path (thumbnailPathFor r.id) = true) :
    processOne gen s r = { s with total_processed := s.total_processed + 1,
                                  total_success := s.total_success + 1,
                                  disk := thumbnailPathFor r.id :: s.disk,
                                  table := updateThumb s.table r.id (thumbnailPathFor r.id) } := by
  unfold processOne
  rw [if_pos hsrc, if_neg hthumb, hg]
  rfl

/-- Every loop iteration either leaves the table unchanged or applies the
single-row update for the processed record's id. -/
theorem processOne_table (gen : String → String → Bool) (s : ThumbState) (r : Row) :
    (processOne gen s r).table = s.table ∨
    (processOne gen s r).table = updateThumb s.table r.id (thumbnailPathFor r.id) := by
  by_cases h1 : r.path ∈ s.disk
  · by_cases h2 : thumbnailPathFor r.id ∈ s.disk
    · left; rw [processOne_already gen s r h1 h2]
    · cases hg : gen r.path (thumbnailPathFor r.id) with
      | false => left; rw [processOne_genfail gen s r h1 h2 hg]
      | true => right; rw [processOne_gensucc gen s r h1 h2 hg]
  · left; rw [processOne_missing gen s r h1]

theorem updateThumb_mem (table : List Row) (iid : Nat) (p : String) (d : Row)
    (hne : iid ≠ d.id) (hd : d ∈ table) : d ∈ updateThumb table iid p := by
  unfold updateThumb
  have heq : (if d.id = iid then { d with thumbnail_path := some p } else d) = d :=
    if_neg (fun h => hne h.symm)
  exact heq ▸ List.mem_map_of_mem _ hd

theorem updateThumb_inv (table : List Row) (iid : Nat) (p : String) (d : Row)
    (hne : iid ≠ d.id) (hinv : ∀ row ∈ table, row.id = d.id → row = d) :
    ∀ row ∈ updateThumb table iid p, row.id = d.id → row = d := by
  intro row hrow hid
  unfold updateThumb at hrow
  obtain ⟨row0, hrow0, heq⟩ := List.mem_map.mp hrow
  by_cases h0 : row0.id = iid
  · rw [if_pos h0] at heq
    exfalso
    apply hne
    rw [← hid, ← heq]
    exact h0.symm
  · rw [if_neg h0] at heq
    exact heq ▸ hinv row0 hrow0 (heq ▸ hid)

/-- A record whose id is hit by no processed record survives the whole
thumbnail loop unchanged, and the table keeps the property that its id
identifies it. -/
theorem thumbLoop_preserve (gen : String → String → Bool) (d : Row) :
    ∀ (sel : List Row) (s : ThumbState),
      (∀ r ∈ sel, r.id ≠ d.id) →
      (∀ row ∈ s.table, row.id = d.id → row = d) →
      (d ∈ s.table → d ∈ (sel.foldl (processOne gen) s).table) ∧
      (∀ row ∈ (sel.foldl (processOne gen) s).table, row.id = d.id → row = d) := by
  intro sel
  induction sel with
  | nil => intro s _ hinv; exact ⟨fun h => h, hinv⟩
  | cons r rs ih =>
      intro s hsel hinv
      rw [List.foldl_cons]
      have hne : r.id ≠ d.id := hsel r (List.mem_cons_self r rs)
      have hrs : ∀ x ∈ rs, x.id ≠ d.id := fun x hx => hsel x (List.mem_cons_of_mem r hx)
      have htab := processOne_table gen s r
      have hmem : d ∈ s.table → d ∈ (processOne gen s r).table := by
        intro hd
        rcases htab with h | h
        · rw [h]; exact hd
        · rw [h]; exact updateThumb_mem s.table r.id _ d hne hd
      have hinv2 : ∀ row ∈ (processOne gen s r).table, row.id = d.id → row = d := by
        rcases htab with h | h
        · rw [h]; exact hinv
        · rw [h]; exact updateThumb_inv s.table r.id _ d hne hinv
      obtain ⟨m, v⟩ := ih (processOne gen s r) hrs hinv2
      exact ⟨fun hd => m (hmem hd), v⟩

theorem create_thumbnails_preserve (gen : String → String → Bool)
    (table : List Row) (disk : List String) (d : Row)
    (hext : SUPPORTED_IMAGE_EXTENSIONS.contains d.extension = false)
    (hinv : ∀ row ∈ table, row.id = d.id → row = d) :
    (d ∈ table → d ∈ (create_thumbnails gen table disk).table) ∧
    (∀ row ∈ (create_thumbnails gen table disk).table, row.id = d.id → row = d) := by
  unfold create_thumbnails
  refine thumbLoop_preserve gen d (recordsMissingArtifact table)
    { table := table, disk := disk,
      total_images := (recordsMissingArtifact table).length,
      total_processed := 0, total_skipped := 0, total_errors := 0,
      total_success := 0 } ?_ hinv
  intro r hr hid
  unfold recordsMissingArtifact at hr
  have hrt := (List.mem_filter.mp hr).1
  have hpred := (List.mem_filter.mp hr).2
  rw [hinv r hrt hid] at hpred
  rw [Bool.and_eq_true, hext] at hpred
  exact absurd hpred.1 (by simp)

theorem thumbnailRuns_preserve (gen : String → String → Bool) (d : Row)
    (hext : SUPPORTED_IMAGE_EXTENSIONS.contains d.extension = false) :
    ∀ (n : Nat) (table : List Row) (disk : List String),
      (∀ row ∈ table, row.id = d.id → row = d) →
      (d ∈ table → d ∈ (thumbnailRuns gen n (table, disk)).1) ∧
      (∀ row ∈ (thumbnailRuns gen n (table, disk)).1, row.id = d.id → row = d) := by
  intro n
  induction n with
  | zero => intro table disk hinv; exact ⟨fun h => h, hinv⟩
  | succ n ih =>
      intro table disk hinv
      rw [thumbnailRuns]
      obtain ⟨hm, hv⟩ := create_thumbnails_preserve gen table disk d hext hinv
      obtain ⟨hm2, hv2⟩ := ih (create_thumbnails gen table disk).table
        (create_thumbnails gen table disk).disk hv
      exact ⟨fun hd => hm2 (hm hd), hv2⟩

/-- C10: `.dng` is in the scanner's extension set (so such files are
cataloged) but absent from the thumbnail pass's supported set, so a `.dng`
record is never returned by the missing-artifact query, and — provided its
id identifies it in the table, as the SERIAL primary key guarantees — it
survives any number of thumbnail passes completely unchanged, its
`thumbnail_path` never set. -/
theorem c10_dng_never_thumbnailed (gen : String → String → Bool)
    (table : List Row) (disk : List String) (d : Row)
    (hext : d.extension = ".dng")
    (hid : ∀ row ∈ table, row.id = d.id → row = d) :
    ".dng" ∈ IMAGE_EXTENSIONS ∧ ".dng" ∉ SUPPORTED_IMAGE_EXTENSIONS ∧
    d ∉ recordsMissingArtifact table ∧
    ∀ n, (d ∈ table → d ∈ (thumbnailRuns gen n (table, disk)).1) ∧
      ∀ row ∈ (thumbnailRuns gen n (table, disk)).1, row.id = d.id → row = d := by
  have hc : SUPPORTED_IMAGE_EXTENSIONS.contains d.extension = false := by
    rw [hext]; rfl
  refine ⟨by decide, by decide, ?_, ?_⟩
  · intro hmem
    unfold recordsMissingArtifact at hmem
    have hpred := (List.mem_filter.mp hmem).2
    rw [Bool.and_eq_true, hc] at hpred
    exact absurd hpred.1 (by simp)
  · intro n
    exact thumbnailRuns_preserve gen d hc n table disk hid

theorem c10_dng_never_thumbnailed_witness :
    ".dng" ∈ IMAGE_EXTENSIONS ∧ ".dng" ∉ SUPPORTED_IMAGE_EXTENSIONS ∧
    (⟨2, "b.dng", "/p/b.dng", ".dng", 0, 0, "h2", none⟩ : Row) ∉
      recordsMissingArtifact [⟨2, "b.dng", "/p/b.dng", ".dng", 0, 0, "h2", none⟩] ∧
    ∀ n, ((⟨2, "b.dng", "/p/b.dng", ".dng", 0, 0, "h2", none⟩ : Row) ∈
        [(⟨2, "b.dng", "/p/b.dng", ".dng", 0, 0, "h2", none⟩ : Row)] →
        (⟨2, "b.dng", "/p/b.dng", ".dng", 0, 0, "h2", none⟩ : Row) ∈
        (thumbnailRuns (fun _ _ => true) n
          ([⟨2, "b.dng", "/p/b.dng", ".dng", 0, 0, "h2", none⟩], ["/p/b.dng"])).1) ∧
      ∀ row ∈ (thumbnailRuns (fun _ _ => true) n
          ([(⟨2, "b.dng", "/p/b.dng", ".dng", 0, 0, "h2", none⟩ : Row)], ["/p/b.dng"])).1,
        row.id = 2 → row = ⟨2, "b.dng", "/p/b.dng", ".dng", 0, 0, "h2", none⟩ :=
  c10_dng_never_thumbnailed (fun _ _ => true)
    [⟨2, "b.dng", "/p/b.dng", ".dng", 0, 0, "h2", none⟩] ["/p/b.dng"]
    ⟨2, "b.dng", "/p/b.dng", ".dng", 0, 0, "h2", none⟩ rfl (by decide)

/-! ## Scanner characterization (C7) -/

theorem collect_aux (dirs : List RootDir) :
    ∀ (acc : List FsFile) (f : FsFile),
      (f ∈ dirs.foldl
        (fun acc d => if d.doesExist then acc ++ d.entries.filter candidateFile else acc)
        acc) ↔
      f ∈ acc ∨ ∃ d ∈ dirs, d.doesExist = true ∧ f ∈ d.entries.filter candidateFile := by
  induction dirs with
  | nil => intro acc f; simp
  | cons d ds ih =>
      intro acc f
      rw [List.foldl_cons, ih]
      by_cases hd : d.doesExist = true
      · rw [if_pos hd]
        simp only [List.mem_append, List.mem_cons]
        constructor
        · rintro ((h | h) | ⟨d1, hd1, he, hf⟩)
          · exact Or.inl h
          · exact Or.inr ⟨d, Or.inl rfl, hd, h⟩
          · exact Or.inr ⟨d1, Or.inr hd1, he, hf⟩
        · rintro (h | ⟨d1, (rfl | hd1), he, hf⟩)
          · exact Or.inl (Or.inl h)
          · exact Or.inl (Or.inr hf)
          · exact Or.inr ⟨d1, hd1, he, hf⟩
      · rw [if_neg hd]
        simp only [List.mem_cons]
        constructor
        · rintro (h | ⟨d1, hd1, he, hf⟩)
          · exact Or.inl h
          · exact Or.inr ⟨d1, Or.inr hd1, he, hf⟩
        · rintro (h | ⟨d1, (rfl | hd1), he, hf⟩)
          · exact Or.inl h
          · exact absurd he hd
          · exact Or.inr ⟨d1, hd1, he, hf⟩

theorem candidateFile_iff (f : FsFile) :
    candidateFile f = true ↔
      f.is_file = true ∧ strLower (pySuffix f.name) ∈ IMAGE_EXTENSIONS ∧
      pyStartsWith f.name "." = false ∧ ∀ part ∈ f.parts, part ∉ EXCLUDE_DIRS := by
  unfold candidateFile
  simp [Bool.and_eq_true, Bool.not_eq_true', List.any_eq_false, List.contains,
    List.elem_iff, and_assoc]

/-- C7: a file is emitted as a candidate by `collect_files` iff it lies in
one of the root directories that exists, is a regular file, its extension
compared case-insensitively is in the supported image-extension set, its
name does not start with the hidden-file dot, and no component of its path
is in the exclusion set.  Directories that do not exist contribute nothing
(and the scan of them raises no error — the fold is total). -/
theorem c7_candidate_iff (base_dirs : List RootDir) (f : FsFile) :
    f ∈ collect_files base_dirs ↔
      ∃ d ∈ base_dirs, d.doesExist = true ∧ f ∈ d.entries ∧
        f.is_file = true ∧ strLower (pySuffix f.name) ∈ IMAGE_EXTENSIONS ∧
        pyStartsWith f.name "." = false ∧ ∀ part ∈ f.parts, part ∉ EXCLUDE_DIRS := by
  unfold collect_files
  rw [collect_aux]
  simp only [List.not_mem_nil, false_or, List.mem_filter, candidateFile_iff, and_assoc]

theorem c7_candidate_iff_witness :
    (⟨["home", "Pictures", "a.JPG"], true, "/home/Pictures/a.JPG",
        some (10, 5), some []⟩ : FsFile) ∈
      collect_files
        [⟨false, []⟩,
         ⟨true, [⟨["home", "Pictures", "a.JPG"], true, "/home/Pictures/a.JPG",
           some (10, 5), some []⟩]⟩] :=
  (c7_candidate_iff _ _).mpr (by decide)

/-! ## Insert conflict behavior (C1) -/

/-- C1 counterexample: a one-record batch whose path already exists in the
registry with a different fingerprint.  The claim says the record is
silently skipped with no error; in fact `ON CONFLICT (hash) DO NOTHING`
covers only fingerprint conflicts, so the path-uniqueness violation raises
an error (the batch insert fails instead of returning a count). -/
theorem c1_counterexample :
    (∃ row ∈ (⟨[⟨1, "a.jpg", "/p/a.jpg", ".jpg", 10, 5, "h1", none⟩], 2⟩ :
        ImagesTable).rows, row.path = "/p/a.jpg") ∧
    insert_image_records ⟨[⟨1, "a.jpg", "/p/a.jpg", ".jpg", 10, 5, "h1", none⟩], 2⟩
      [⟨"a2.jpg", "/p/a.jpg", ".jpg", 11, 6, "h2"⟩] = .error () := by
  constructor
  · exact ⟨_, List.mem_singleton.mpr rfl, rfl⟩
  · rfl

/-- C1 as amended: a record whose path already exists in the registry is
silently skipped — existing row untouched, excluded from the inserted
count — exactly when its fingerprint also conflicts (in particular, for the
identical record on a rerun, whose skip the hash arbiter handles before the
path constraint is ever checked).  When the path exists with a fingerprint
that conflicts with no row, the insert raises a unique-violation error
instead of skipping. -/
theorem c1_amended_path_conflict (t : ImagesTable) (r : ImageRecord)
    (hpath : ∃ row ∈ t.rows, row.path = r.path) :
    ((∃ row ∈ t.rows, row.hash = r.hash) →
      insert_image_records t [r] = .ok (t, 0)) ∧
    ((∀ row ∈ t.rows, row.hash ≠ r.hash) →
      insert_image_records t [r] = .error ()) := by
  constructor
  · intro hh
    unfold insert_image_records insertOne
    rw [if_pos hh]
    rfl
  · intro hnone
    unfold insert_image_records insertOne
    rw [if_neg (by
      rintro ⟨row, hrow, hhash⟩
      exact hnone row hrow hhash), if_pos hpath]

theorem c1_amended_path_conflict_witness :
    insert_image_records ⟨[⟨1, "a.jpg", "/p/a.jpg", ".jpg", 10, 5, "h1", none⟩], 2⟩
      [⟨"a.jpg", "/p/a.jpg", ".jpg", 10, 5, "h1"⟩] =
      .ok (⟨[⟨1, "a.jpg", "/p/a.jpg", ".jpg", 10, 5, "h1", none⟩], 2⟩, 0) :=
  (c1_amended_path_conflict ⟨[⟨1, "a.jpg", "/p/a.jpg", ".jpg", 10, 5, "h1", none⟩], 2⟩
      ⟨"a.jpg", "/p/a.jpg", ".jpg", 10, 5, "h1"⟩
      ⟨_, List.mem_singleton.mpr rfl, rfl⟩).1
    ⟨_, List.mem_singleton.mpr rfl, rfl⟩

/-! ## Batching and dedup lemmas (C3) -/

/-- Splitting a batch splits the sequential conflict-handling fold. -/
theorem insert_append (as : List ImageRecord) :
    ∀ (t : ImagesTable) (bs : List ImageRecord),
      insert_image_records t (as ++ bs) =
        match insert_image_records t as with
        | .error e => .error e
        | .ok (t1, m) =>
            match insert_image_records t1 bs with
            | .error e => .error e
            | .ok (t2, n) => .ok (t2, m + n) := by
  induction as with
  | nil =>
      intro t bs
      rw [List.nil_append]
      cases h : insert_image_records t bs with
      | error e => simp [insert_image_records, h]
      | ok p => simp [insert_image_records, h]
  | cons a as ih =>
      intro t bs
      rw [List.cons_append]
      simp only [insert_image_records]
      cases h1 : insertOne t a with
      | error e => rfl
      | ok p =>
          obtain ⟨t1, m⟩ := p
          dsimp only
          rw [ih t1 bs]
          cases h2 : insert_image_records t1 as with
          | error e => rfl
          | ok q =>
              obtain ⟨t2, n⟩ := q
              dsimp only
              cases h3 : insert_image_records t2 bs with
              | error e => rfl
              | ok w =>
                  obtain ⟨t3, k⟩ := w
                  simp [Nat.add_assoc]

/-- The buffering loop of `catalog_images` is equivalent to one sequential
pass over all candidate records: batching changes neither the conflict
handling nor the total inserted count. -/
theorem catalogStep_eq (bsz : Nat) :
    ∀ (fs : List FsFile) (buffer : List ImageRecord) (t : ImagesTable) (total : Nat),
      catalogStep bsz fs buffer t total =
        match insert_image_records t (buffer ++ fs.filterMap process_file_metadata) with
        | .error e => .error e
        | .ok (t1, m) => .ok (t1, total + m) := by
  intro fs
  induction fs with
  | nil =>
      intro buffer t total
      rw [List.filterMap_nil, List.append_nil]
      rfl
  | cons f fs ih =>
      intro buffer t total
      cases hp : process_file_metadata f with
      | none =>
          simp only [catalogStep, hp, List.filterMap_cons]
          rw [ih]
      | some record =>
          simp only [catalogStep, hp, List.filterMap_cons]
          have happ : buffer ++ record :: fs.filterMap process_file_metadata =
              (buffer ++ [record]) ++ fs.filterMap process_file_metadata := by
            rw [List.append_assoc, List.singleton_append]
          rw [happ, insert_append (buffer ++ [record]) t (fs.filterMap process_file_metadata)]
          by_cases hb : bsz ≤ (buffer ++ [record]).length
          · rw [if_pos hb]
            cases h1 : insert_image_records t (buffer ++ [record]) with
            | error e => rfl
            | ok p =>
                obtain ⟨t1, m⟩ := p
                dsimp only
                rw [ih [] t1 (total + m), List.nil_append]
                cases h2 : insert_image_records t1 (fs.filterMap process_file_metadata) with
                | error e => rfl
                | ok q =>
                    obtain ⟨t2, n⟩ := q
                    simp [Nat.add_assoc]
          · rw [if_neg hb, ih]
            rw [← insert_append (buffer ++ [record]) t (fs.filterMap process_file_metadata), ← happ]

/-- With pairwise-distinct hashes, the number of rows carrying a given
fingerprint is one or zero according to membership. -/
theorem count_hash (rows : List Row) (fp : String)
    (hdist : rows.Pairwise (fun a b => a.hash ≠ b.hash)) :
    (rows.filter (fun row => row.hash == fp)).length =
      if ∃ row ∈ rows, row.hash = fp then 1 else 0 := by
  induction rows with
  | nil => simp
  | cons r rows ih =>
      rw [List.pairwise_cons] at hdist
      obtain ⟨hhead, htail⟩ := hdist
      by_cases hr : r.hash = fp
      · rw [List.filter_cons_of_pos (by simp [hr])]
        have hnone : rows.filter (fun row => row.hash == fp) = [] := by
          rw [List.filter_eq_nil_iff]
          intro row hrow
          simp only [beq_iff_eq]
          intro hcontra
          exact hhead row hrow (hr ▸ hcontra ▸ rfl)
        rw [hnone, if_pos ⟨r, List.mem_cons_self r rows, hr⟩]
        rfl
      · rw [List.filter_cons_of_neg (by simp [hr])]
        rw [ih htail]
        by_cases hex : ∃ row ∈ rows, row.hash = fp
        · rw [if_pos hex, if_pos (by
            obtain ⟨row, hrow, hh⟩ := hex
            exact ⟨row, List.mem_cons_of_mem r hrow, hh⟩)]
        · rw [if_neg hex, if_neg (by
            rintro ⟨row, hrow, hh⟩
            rcases List.mem_cons.mp hrow with rfl | hrow
            · exact hr hh
            · exact hex ⟨row, hrow, hh⟩)]

/-- A batch all of whose fingerprints already conflict is a complete no-op
returning count 0 (regardless of path conflicts, which the arbiter check
preempts). -/
theorem insert_noop (cs : List ImageRecord) :
    ∀ (t : ImagesTable), (∀ r ∈ cs, ∃ row ∈ t.rows, row.hash = r.hash) →
      insert_image_records t cs = .ok (t, 0) := by
  induction cs with
  | nil => intro t _; rfl
  | cons r cs ih =>
      intro t hall
      have h1 : insertOne t r = Except.ok (t, 0) := by
        unfold insertOne
        rw [if_pos (hall r (List.mem_cons_self r cs))]
      have h2 := ih t (fun x hx => hall x (List.mem_cons_of_mem r hx))
      simp only [insert_image_records, h1, h2]

/-- Main single-run lemma: under a hash-distinct table, when every path
clash (inside the batch or against the table) comes with an equal hash, the
batched insert succeeds, preserves hash-distinctness, and the final table
carries a fingerprint iff the initial table or the batch did. -/
theorem insert_ok (cs : List ImageRecord) :
    ∀ (t : ImagesTable),
      t.rows.Pairwise (fun a b => a.hash ≠ b.hash) →
      (∀ r ∈ cs, ∀ row ∈ t.rows, row.path = r.path → row.hash = r.hash) →
      (∀ r1 ∈ cs, ∀ r2 ∈ cs, r1.path = r2.path → r1.hash = r2.hash) →
      ∃ t1 n, insert_image_records t cs = .ok (t1, n) ∧
        t1.rows.Pairwise (fun a b => a.hash ≠ b.hash) ∧
        ∀ fp, ((∃ row ∈ t1.rows, row.hash = fp) ↔
          (∃ row ∈ t.rows, row.hash = fp) ∨ fp ∈ cs.map ImageRecord.hash) := by
  induction cs with
  | nil =>
      intro t hdist _ _
      exact ⟨t, 0, rfl, hdist, fun fp => by simp⟩
  | cons r cs ih =>
      intro t hdist hpath hcons
      have hmemr : r ∈ r :: cs := List.mem_cons_self r cs
      by_cases hh : ∃ row ∈ t.rows, row.hash = r.hash
      · -- hash conflict: row skipped
        obtain ⟨t1, n, heq, hdist1, hiff⟩ := ih t hdist
          (fun x hx => hpath x (List.mem_cons_of_mem r hx))
          (fun x hx y hy => hcons x (List.mem_cons_of_mem r hx) y (List.mem_cons_of_mem r hy))
        have h1 : insertOne t r = Except.ok (t, 0) := by
          unfold insertOne
          rw [if_pos hh]
        refine ⟨t1, 0 + n, ?_, hdist1, ?_⟩
        · simp only [insert_image_records, h1, heq]
        · intro fp
          rw [hiff fp, List.map_cons, List.mem_cons]
          constructor
          · rintro (h | h)
            · exact Or.inl h
            · exact Or.inr (Or.inr h)
          · rintro (h | h | h)
            · exact Or.inl h
            · obtain ⟨row, hrow, hrh⟩ := hh
              exact Or.inl ⟨row, hrow, h ▸ hrh⟩
            · exact Or.inr h
      · -- no hash conflict: the row inserts (a path conflict would imply a
        -- hash conflict by hypothesis)
        have hnopath : ¬ ∃ row ∈ t.rows, row.path = r.path := by
          rintro ⟨row, hrow, hp⟩
          exact hh ⟨row, hrow, hpath r hmemr row hrow hp⟩
        have hnew : ∀ row ∈ t.rows, row.hash ≠ (mkRow t.nextId r).hash := by
          intro row hrow hcontra
          exact hh ⟨row, hrow, hcontra⟩
        have hdist2 : (t.rows ++ [mkRow t.nextId r]).Pairwise
            (fun a b => a.hash ≠ b.hash) := by
          rw [List.pairwise_append]
          exact ⟨hdist, List.pairwise_singleton _ _,
            fun a ha b hb => by
              rw [List.mem_singleton.mp hb]
              exact hnew a ha⟩
        have hpath2 : ∀ x ∈ cs, ∀ row ∈ t.rows ++ [mkRow t.nextId r],
            row.path = x.path → row.hash = x.hash := by
          intro x hx row hrow hp
          rcases List.mem_append.mp hrow with hrow | hrow
          · exact hpath x (List.mem_cons_of_mem r hx) row hrow hp
          · rw [List.mem_singleton.mp hrow] at hp ⊢
            exact hcons r hmemr x (List.mem_cons_of_mem r hx) hp
        obtain ⟨t1, n, heq, hdist1, hiff⟩ :=
          ih ⟨t.rows ++ [mkRow t.nextId r], t.nextId + 1⟩ hdist2 hpath2
            (fun x hx y hy => hcons x (List.mem_cons_of_mem r hx) y (List.mem_cons_of_mem r hy))
        have h1 : insertOne t r =
            Except.ok (⟨t.rows ++ [mkRow t.nextId r], t.nextId + 1⟩, 1) := by
          unfold insertOne
          rw [if_neg hh, if_neg hnopath]
        refine ⟨t1, 1 + n, ?_, hdist1, ?_⟩
        · simp only [insert_image_records, h1, heq]
        · intro fp
          rw [hiff fp, List.map_cons, List.mem_cons]
          constructor
          · rintro (⟨row, hrow, hrh⟩ | h)
            · rcases List.mem_append.mp hrow with hrow | hrow
              · exact Or.inl ⟨row, hrow, hrh⟩
              · rw [List.mem_singleton.mp hrow] at hrh
                exact Or.inr (Or.inl hrh.symm)
            · exact Or.inr (Or.inr h)
          · rintro (⟨row, hrow, hrh⟩ | h | h)
            · exact Or.inl ⟨row, List.mem_append_left _ hrow, hrh⟩
            · exact Or.inl ⟨mkRow t.nextId r,
                List.mem_append_right _ (List.mem_singleton.mpr rfl), h.symm⟩
            · exact Or.inr h

/-- C3: running the scan-and-insert pipeline from an empty registry leaves
exactly one registry record per distinct content fingerprint of the scanned
candidates (duplicate contents at the same or different paths collapse to
the first-seen record via the conflict policy), and a second pipeline run
whose candidates carry no new fingerprints — in particular a rerun over the
unchanged directory tree — inserts zero records and leaves the registry
unchanged.  The hypothesis `hcons` (two candidates at one path have one
fingerprint) holds for any real scan snapshot, where a path has one
content. -/
theorem c3_dedup_idempotent (dirs dirs2 : List RootDir) (bsz bsz2 : Nat)
    (cs cs2 : List ImageRecord)
    (hcs : cs = (collect_files dirs).filterMap process_file_metadata)
    (hcs2 : cs2 = (collect_files dirs2).filterMap process_file_metadata)
    (hcons : ∀ r1 ∈ cs, ∀ r2 ∈ cs, r1.path = r2.path → r1.hash = r2.hash)
    (hsub : ∀ r ∈ cs2, r.hash ∈ cs.map ImageRecord.hash) :
    ∃ t1 n1, catalog_images emptyTable dirs bsz = .ok (t1, n1) ∧
      (∀ fp, (t1.rows.filter (fun row => row.hash == fp)).length =
        if fp ∈ cs.map ImageRecord.hash then 1 else 0) ∧
      catalog_images t1 dirs2 bsz2 = .ok (t1, 0) := by
  obtain ⟨t1, n, heq, hdist1, hiff⟩ := insert_ok cs emptyTable
    (by simp [emptyTable]) (by simp [emptyTable]) hcons
  refine ⟨t1, 0 + n, ?_, ?_, ?_⟩
  · unfold catalog_images
    rw [catalogStep_eq, List.nil_append, ← hcs, heq]
  · intro fp
    rw [count_hash t1.rows fp hdist1]
    have hmem : (∃ row ∈ t1.rows, row.hash = fp) ↔ fp ∈ cs.map ImageRecord.hash := by
      rw [hiff fp]
      simp [emptyTable]
    exact if_congr hmem rfl rfl
  · have hall : ∀ r ∈ cs2, ∃ row ∈ t1.rows, row.hash = r.hash := by
      intro r hr
      exact (hiff r.hash).mpr (Or.inr (hsub r hr))
    unfold catalog_images
    rw [catalogStep_eq, List.nil_append, ← hcs2, insert_noop cs2 t1 hall]

set_option maxRecDepth 8192 in
theorem c3_dedup_idempotent_witness :
    ∃ t1 n1,
      catalog_images emptyTable
        [⟨true, [⟨["home", "Pictures", "a.jpg"], true, "/home/Pictures/a.jpg",
            some (3, 7), some [1, 2]⟩]⟩] 500 = .ok (t1, n1) ∧
      (∀ fp, (t1.rows.filter (fun row => row.hash == fp)).length =
        if fp ∈ ((collect_files
            [⟨true, [⟨["home", "Pictures", "a.jpg"], true, "/home/Pictures/a.jpg",
              some (3, 7), some [1, 2]⟩]⟩]).filterMap
              process_file_metadata).map ImageRecord.hash
        then 1 else 0) ∧
      catalog_images t1
        [⟨true, [⟨["home", "Pictures", "a.jpg"], true, "/home/Pictures/a.jpg",
            some (3, 7), some [1, 2]⟩]⟩] 500 = .ok (t1, 0) :=
  c3_dedup_idempotent
    [⟨true, [⟨["home", "Pictures", "a.jpg"], true, "/home/Pictures/a.jpg",
        some (3, 7), some [1, 2]⟩]⟩]
    [⟨true, [⟨["home", "Pictures", "a.jpg"], true, "/home/Pictures/a.jpg",
        some (3, 7), some [1, 2]⟩]⟩]
    500 500 _ _ rfl rfl (by decide) (by decide)

/-! ## PIL bounded-resize lemmas (C9) -/

theorem round_aspect_cases (number : ℚ) (key : ℤ → ℚ) :
    round_aspect number key = max ⌊number⌋ 1 ∨
    round_aspect number key = max ⌈number⌉ 1 := by
  unfold round_aspect
  split
  · exact Or.inl rfl
  · exact Or.inr rfl

theorem clamp_le (e : ℚ) (c m : ℤ) (hc : c = ⌊e⌋ ∨ c = ⌈e⌉)
    (hem : e ≤ (m : ℚ)) (hm : 1 ≤ m) : max c 1 ≤ m := by
  have hceil : ⌈e⌉ ≤ m := Int.ceil_le.mpr hem
  have hfloor : ⌊e⌋ ≤ m := le_trans (Int.floor_le_ceil e) hceil
  rcases hc with rfl | rfl
  · exact max_le hfloor hm
  · exact max_le hceil hm

theorem clamp_near (e : ℚ) (c : ℤ) (hc : c = ⌊e⌋ ∨ c = ⌈e⌉) (he : 0 < e) :
    |((max c 1 : ℤ) : ℚ) - e| < 1 := by
  rcases hc with rfl | rfl
  · by_cases h1 : (1 : ℤ) ≤ ⌊e⌋
    · rw [max_eq_left h1, abs_sub_lt_iff]
      have hle := Int.floor_le e
      have hlt := Int.lt_floor_add_one e
      constructor
      · linarith
      · linarith
    · push_neg at h1
      rw [max_eq_right (by omega : ⌊e⌋ ≤ 1)]
      have hfle : (⌊e⌋ : ℚ) ≤ 0 := by exact_mod_cast (by omega : ⌊e⌋ ≤ 0)
      have hlt := Int.lt_floor_add_one e
      rw [abs_sub_lt_iff]
      constructor
      · push_cast
        linarith
      · push_cast
        linarith
  · have h1 : (1 : ℤ) ≤ ⌈e⌉ := Int.ceil_pos.mpr he
    rw [max_eq_left h1, abs_sub_lt_iff]
    have hle := Int.le_ceil e
    have hlt := Int.ceil_lt_add_one e
    constructor
    · linarith
    · linarith

/-- Bounds for the rounded side when the other side is pinned to 300:
written for the branch that pins the height (the width branch follows by
swapping the roles of the two dimensions). -/
theorem thumb_branch (w h : Nat) (X : ℤ) (hw : 1 ≤ w) (hbig : 300 < h) (hwh : w ≤ h)
    (hX : X = max ⌊(300 : ℚ) * ((w : ℚ) / (h : ℚ))⌋ 1 ∨
          X = max ⌈(300 : ℚ) * ((w : ℚ) / (h : ℚ))⌉ 1) :
    1 ≤ X ∧ X ≤ 300 ∧ X ≤ (w : ℤ) ∧
    |(X : ℚ) * (h : ℚ) - 300 * (w : ℚ)| < (h : ℚ) := by
  have hh0 : (0 : ℚ) < (h : ℚ) := by
    have : 0 < h := by omega
    exact_mod_cast this
  have hw0 : (0 : ℚ) < (w : ℚ) := by
    have : 0 < w := hw
    exact_mod_cast this
  have he_pos : 0 < (300 : ℚ) * ((w : ℚ) / (h : ℚ)) := by positivity
  have he_le_300 : (300 : ℚ) * ((w : ℚ) / (h : ℚ)) ≤ 300 := by
    have hq : (w : ℚ) / (h : ℚ) ≤ 1 :=
      div_le_one_of_le₀ (by exact_mod_cast hwh) (le_of_lt hh0)
    nlinarith
  have he_le_w : (300 : ℚ) * ((w : ℚ) / (h : ℚ)) ≤ (w : ℚ) := by
    rw [mul_div_assoc', div_le_iff₀ hh0]
    have h300 : (300 : ℚ) ≤ (h : ℚ) := by exact_mod_cast le_of_lt hbig
    nlinarith
  have hc : ∃ c : ℤ, (c = ⌊(300 : ℚ) * ((w : ℚ) / (h : ℚ))⌋ ∨
      c = ⌈(300 : ℚ) * ((w : ℚ) / (h : ℚ))⌉) ∧ X = max c 1 := by
    rcases hX with rfl | rfl
    · exact ⟨_, Or.inl rfl, rfl⟩
    · exact ⟨_, Or.inr rfl, rfl⟩
  obtain ⟨c, hcase, rfl⟩ := hc
  refine ⟨le_max_right c 1, ?_, ?_, ?_⟩
  · exact clamp_le _ c 300 hcase (by exact_mod_cast he_le_300) (by norm_num)
  · exact clamp_le _ c w hcase (by exact_mod_cast he_le_w) (by exact_mod_cast hw)
  · have hnear := clamp_near _ c hcase he_pos
    have hkey : ((max c 1 : ℤ) : ℚ) * (h : ℚ) - 300 * (w : ℚ) =
        (((max c 1 : ℤ) : ℚ) - (300 : ℚ) * ((w : ℚ) / (h : ℚ))) * (h : ℚ) := by
      field_simp
    rw [hkey, abs_mul, abs_of_pos hh0]
    calc |((max c 1 : ℤ) : ℚ) - (300 : ℚ) * ((w : ℚ) / (h : ℚ))| * (h : ℚ)
        < 1 * (h : ℚ) := mul_lt_mul_of_pos_right hnear hh0
      _ = (h : ℚ) := one_mul _

/-- The size `Image.thumbnail((300, 300))` produces: fits the box, never
upscales either dimension, and preserves the aspect ratio within rounding
(the cross-product differs by less than the larger dimension). -/
theorem pilThumbnailSize_spec (w h : Nat) (hw : 1 ≤ w) (hh : 1 ≤ h) :
    (pilThumbnailSize w h 300 300).1 ≤ 300 ∧
    (pilThumbnailSize w h 300 300).2 ≤ 300 ∧
    (pilThumbnailSize w h 300 300).1 ≤ w ∧
    (pilThumbnailSize w h 300 300).2 ≤ h ∧
    |((pilThumbnailSize w h 300 300).1 : ℤ) * (h : ℤ) -
      ((pilThumbnailSize w h 300 300).2 : ℤ) * (w : ℤ)| < ((max w h : ℕ) : ℤ) := by
  unfold pilThumbnailSize
  by_cases hfit : 300 ≥ w ∧ 300 ≥ h
  · rw [if_pos hfit]
    refine ⟨hfit.1, hfit.2, le_refl w, le_refl h, ?_⟩
    have hz : ((w : ℤ) * (h : ℤ) - (h : ℤ) * (w : ℤ)) = 0 := by ring
    show |(w : ℤ) * (h : ℤ) - (h : ℤ) * (w : ℤ)| < ((max w h : ℕ) : ℤ)
    rw [hz, abs_zero]
    exact_mod_cast (by omega : 0 < max w h)
  · rw [if_neg hfit]
    simp only [Nat.cast_ofNat]
    have hh0 : (0 : ℚ) < (h : ℚ) := by
      have : 0 < h := hh
      exact_mod_cast this
    by_cases hcond : (300 : ℚ) / (300 : ℚ) ≥ (w : ℚ) / (h : ℚ)
    · -- width ≤ height: height pinned to 300
      have hwh : w ≤ h := by
        rw [div_self (by norm_num : (300 : ℚ) ≠ 0), ge_iff_le, div_le_one hh0] at hcond
        exact_mod_cast hcond
      have hbig : 300 < h := by omega
      rw [if_pos hcond]
      obtain ⟨h1, h2, h3, h4⟩ := thumb_branch w h _ hw hbig hwh
        (round_aspect_cases ((300 : ℚ) * ((w : ℚ) / (h : ℚ))) _)
      have htn : ((round_aspect ((300 : ℚ) * ((w : ℚ) / (h : ℚ)))
          (fun n => |(w : ℚ) / (h : ℚ) - (n : ℚ) / (300 : ℚ)|)).toNat : ℤ) =
          round_aspect ((300 : ℚ) * ((w : ℚ) / (h : ℚ)))
            (fun n => |(w : ℚ) / (h : ℚ) - (n : ℚ) / (300 : ℚ)|) :=
        Int.toNat_of_nonneg (by linarith)
      refine ⟨?_, by norm_num, ?_, by omega, ?_⟩
      · show (round_aspect _ _).toNat ≤ 300
        rw [← Nat.cast_le (α := ℤ), htn]
        exact_mod_cast h2
      · show (round_aspect _ _).toNat ≤ w
        rw [← Nat.cast_le (α := ℤ), htn]
        exact h3
      · show |((round_aspect _ _).toNat : ℤ) * (h : ℤ) - (300 : ℤ) * (w : ℤ)| <
          ((max w h : ℕ) : ℤ)
        rw [htn, Nat.max_eq_right hwh]
        exact_mod_cast h4
    · -- height < width: width pinned to 300
      have hwh : h < w := by
        rw [div_self (by norm_num : (300 : ℚ) ≠ 0), ge_iff_le, div_le_one hh0,
          not_le] at hcond
        exact_mod_cast hcond
      have hbig : 300 < w := by omega
      rw [if_neg hcond]
      have hw0 : (0 : ℚ) < (w : ℚ) := by
        have : 0 < w := hw
        exact_mod_cast this
      have hnum : (300 : ℚ) / ((w : ℚ) / (h : ℚ)) = (300 : ℚ) * ((h : ℚ) / (w : ℚ)) := by
        rw [div_div_eq_mul_div, mul_div_assoc]
      rw [hnum]
      obtain ⟨h1, h2, h3, h4⟩ := thumb_branch h w _ hh hbig (le_of_lt hwh)
        (round_aspect_cases ((300 : ℚ) * ((h : ℚ) / (w : ℚ))) _)
      have htn : ((round_aspect ((300 : ℚ) * ((h : ℚ) / (w : ℚ)))
          (fun n => if n = 0 then 0 else |(w : ℚ) / (h : ℚ) - (300 : ℚ) / (n : ℚ)|)).toNat : ℤ) =
          round_aspect ((300 : ℚ) * ((h : ℚ) / (w : ℚ)))
            (fun n => if n = 0 then 0 else |(w : ℚ) / (h : ℚ) - (300 : ℚ) / (n : ℚ)|) :=
        Int.toNat_of_nonneg (by linarith)
      refine ⟨by norm_num, ?_, by omega, ?_, ?_⟩
      · show (round_aspect _ _).toNat ≤ 300
        rw [← Nat.cast_le (α := ℤ), htn]
        exact_mod_cast h2
      · show (round_aspect _ _).toNat ≤ h
        rw [← Nat.cast_le (α := ℤ), htn]
        exact h3
      · show |(300 : ℤ) * (h : ℤ) - ((round_aspect _ _).toNat : ℤ) * (w : ℤ)| <
          ((max w h : ℕ) : ℤ)
        rw [htn, Nat.max_eq_left (le_of_lt hwh), abs_sub_comm]
        exact_mod_cast h4

theorem convertMode_width (img : PILImage) : (convertMode img).width = img.width := by
  unfold convertMode
  split <;> rfl

theorem convertMode_height (img : PILImage) : (convertMode img).height = img.height := by
  unfold convertMode
  split <;> rfl

/-- C9: every successfully derived thumbnail fits the 300×300 box with its
aspect ratio preserved within rounding (cross-product within the larger
original dimension, e.g. 4000×3000 yields 300×225), is never upscaled
beyond the original dimensions (100×80 stays 100×80), and is written as the
single fixed lossy encoding JPEG after normalizing the alpha (RGBA) or
indexed (P) mode to full-color RGB. -/
theorem c9_bounded_thumbnail (img : PILImage) (writeOk : Bool) (out : SavedFile)
    (hw : 1 ≤ img.width) (hh : 1 ≤ img.height)
    (hgen : generate_thumbnail (some img) writeOk = some out) :
    out.format = "JPEG" ∧
    out.width ≤ 300 ∧ out.height ≤ 300 ∧
    out.width ≤ img.width ∧ out.height ≤ img.height ∧
    |(out.width : ℤ) * (img.height : ℤ) - (out.height : ℤ) * (img.width : ℤ)| <
      ((max img.width img.height : ℕ) : ℤ) ∧
    ((img.mode = "RGBA" ∨ img.mode = "P") → out.mode = "RGB") := by
  unfold generate_thumbnail at hgen
  dsimp only at hgen
  split at hgen
  · have hout := (Option.some.inj hgen).symm
    subst hout
    rw [convertMode_width, convertMode_height]
    obtain ⟨s1, s2, s3, s4, s5⟩ := pilThumbnailSize_spec img.width img.height hw hh
    refine ⟨rfl, s1, s2, s3, s4, s5, ?_⟩
    intro hmode
    show (convertMode img).mode = "RGB"
    unfold convertMode
    rw [if_pos hmode]
  · exact absurd hgen (by simp)

set_option maxRecDepth 8192 in
theorem c9_bounded_thumbnail_witness :
    (⟨"RGB", 300, 225, "JPEG"⟩ : SavedFile).format = "JPEG" ∧
    (⟨"RGB", 300, 225, "JPEG"⟩ : SavedFile).width ≤ 300 ∧
    (⟨"RGB", 300, 225, "JPEG"⟩ : SavedFile).height ≤ 300 ∧
    (⟨"RGB", 300, 225, "JPEG"⟩ : SavedFile).width ≤
      (⟨"RGBA", 4000, 3000⟩ : PILImage).width ∧
    (⟨"RGB", 300, 225, "JPEG"⟩ : SavedFile).height ≤
      (⟨"RGBA", 4000, 3000⟩ : PILImage).height ∧
    |((⟨"RGB", 300, 225, "JPEG"⟩ : SavedFile).width : ℤ) *
        ((⟨"RGBA", 4000, 3000⟩ : PILImage).height : ℤ) -
      ((⟨"RGB", 300, 225, "JPEG"⟩ : SavedFile).height : ℤ) *
        ((⟨"RGBA", 4000, 3000⟩ : PILImage).width : ℤ)| <
      ((max (⟨"RGBA", 4000, 3000⟩ : PILImage).width
        (⟨"RGBA", 4000, 3000⟩ : PILImage).height : ℕ) : ℤ) ∧
    (((⟨"RGBA", 4000, 3000⟩ : PILImage).mode = "RGBA" ∨
      (⟨"RGBA", 4000, 3000⟩ : PILImage).mode = "P") →
      (⟨"RGB", 300, 225, "JPEG"⟩ : SavedFile).mode = "RGB") :=
  c9_bounded_thumbnail ⟨"RGBA", 4000, 3000⟩ true ⟨"RGB", 300, 225, "JPEG"⟩
    (by norm_num) (by norm_num)
    (by
      have hsz : pilThumbnailSize 4000 3000 300 300 = (300, 225) := by
        norm_num [pilThumbnailSize, round_aspect]
        decide
      simp [generate_thumbnail, convertMode, JPEG_RAWMODES, hsz])
